import Mathlib

/-!
Verification of `hwid_lock.py` (repository `vinous14/hwid-lock`).

This file shallowly embeds the program: Python strings are modelled as
`List Char` (`PyStr`), the persisted allow-list file as `Option PyStr`
(`none` = the file does not exist, `some c` = its exact text), and the
OS-observable facts that `get_current_hwid` consumes (platform name,
subprocess outputs, `platform.node()` etc.) as an explicit environment
record `SysEnv`.  SHA-256 is implemented in full so that the fingerprint
pipeline is the source's pipeline, byte for byte.

Python's `print` diagnostics are part of each operation's modelled result
(the `printed` field), since the source distinguishes its failure modes
only through them; the *returned* value of each mutation is the source's
plain `bool`.
-/

/-- A Python `str`, modelled as its list of characters. -/
abbrev PyStr := List Char

/-- Coerce a Lean string literal into the `PyStr` model. -/
def str (s : String) : PyStr := s.data

/-- The characters Python's `str.strip()` removes: exactly those `c` with
`c.isspace()` true (ASCII whitespace, the C1 separators, and the Unicode
space code points). -/
def isPySpace (c : Char) : Bool :=
  decide (c.toNat = 32 ∨ (9 ≤ c.toNat ∧ c.toNat ≤ 13) ∨ (28 ≤ c.toNat ∧ c.toNat ≤ 31) ∨
    c.toNat = 133 ∨ c.toNat = 160 ∨ c.toNat = 5760 ∨
    (8192 ≤ c.toNat ∧ c.toNat ≤ 8202) ∨ c.toNat = 8232 ∨ c.toNat = 8233 ∨
    c.toNat = 8239 ∨ c.toNat = 8287 ∨ c.toNat = 12288)

/-- ASCII case mapping of Python's `str.upper()` on one character.  (The
source only ever upper-cases fingerprints and hex digests; non-ASCII
letters are modelled as unchanged.) -/
def pyUpperChar (c : Char) : Char :=
  if 97 ≤ c.toNat ∧ c.toNat ≤ 122 then Char.ofNat (c.toNat - 32) else c

/-- ASCII case mapping of Python's `str.lower()` on one character. -/
def pyLowerChar (c : Char) : Char :=
  if 65 ≤ c.toNat ∧ c.toNat ≤ 90 then Char.ofNat (c.toNat + 32) else c

/-- Python `s.upper()` (ASCII range). -/
def pyUpper (s : PyStr) : PyStr := s.map pyUpperChar

/-- Python `s.lower()` (ASCII range). -/
def pyLower (s : PyStr) : PyStr := s.map pyLowerChar

/-- Remove the maximal run of trailing whitespace (the right half of
Python's `str.strip()`). -/
def rstripWs : PyStr → PyStr
  | [] => []
  | c :: cs =>
    let r := rstripWs cs
    if r.isEmpty && isPySpace c then [] else c :: r

/-- Python `s.strip()`: drop leading and trailing whitespace. -/
def pyStrip (s : PyStr) : PyStr := rstripWs (s.dropWhile isPySpace)

/-- Python `line.startswith('#')`. -/
def startsWithHash : PyStr → Bool
  | [] => false
  | c :: _ => c == '#'

/-- Python `sub in s` (substring containment). -/
def containsSub (s sub : PyStr) : Bool := s.tails.any (fun t => sub.isPrefixOf t)

/-- Python `s.split(sep)` for a one-character separator `sep`. -/
def splitOnChar (sep : Char) : PyStr → List PyStr
  | [] => [[]]
  | c :: cs =>
    let r := splitOnChar sep cs
    if c == sep then [] :: r else (c :: r.headD []) :: r.tail

/-- Splitting a file's text into its lines (iterating a Python text file
line by line; each piece is handed to `strip()`, which also removes the
separators themselves, so separator-less pieces are the faithful model). -/
def splitNl (s : PyStr) : List PyStr := splitOnChar '\n' s

/-- Join a list of lines, terminating every line with a newline, as the
source's repeated `f.write(f"{x}\n")` calls do. -/
def linesJoin : List PyStr → PyStr
  | [] => []
  | l :: ls => l ++ '\n' :: linesJoin ls

/-- Python `sep.join(xs)`. -/
def joinSep (sep : PyStr) : List PyStr → PyStr
  | [] => []
  | [x] => x
  | x :: xs => x ++ sep ++ joinSep sep xs

section PyStrLemmas

theorem splitOnChar_ne_nil (sep : Char) (s : PyStr) : splitOnChar sep s ≠ [] := by
  cases s with
  | nil => simp [splitOnChar]
  | cons c cs => simp only [splitOnChar]; split <;> simp

theorem splitOnChar_cons (sep c : Char) (cs : PyStr) :
    splitOnChar sep (c :: cs) =
      if c == sep then [] :: splitOnChar sep cs
      else (c :: (splitOnChar sep cs).headD []) :: (splitOnChar sep cs).tail := rfl

theorem mem_splitOnChar_not_sep {sep : Char} {s : PyStr} :
    ∀ l ∈ splitOnChar sep s, sep ∉ l := by
  induction s with
  | nil =>
    intro l hl
    simp only [splitOnChar, List.mem_singleton] at hl
    simp [hl]
  | cons c cs ih =>
    intro l hl
    rcases hr : splitOnChar sep cs with _ | ⟨h, t⟩
    · exact absurd hr (splitOnChar_ne_nil sep cs)
    · rw [splitOnChar_cons, hr] at hl
      by_cases hc : c = sep
      · rw [if_pos (by simp [hc])] at hl
        rcases List.mem_cons.mp hl with hl | hl
        · simp [hl]
        · exact ih l (by rw [hr]; exact hl)
      · rw [if_neg (by simp [hc])] at hl
        simp only [List.headD_cons, List.tail_cons] at hl
        rcases List.mem_cons.mp hl with hl | hl
        · subst hl
          intro hmem
          rcases List.mem_cons.mp hmem with hm | hm
          · exact hc hm.symm
          · have hh : h ∈ splitOnChar sep cs := by
              rw [hr]; exact List.mem_cons_self h t
            exact ih h hh hm
        · exact ih l (by rw [hr]; exact List.mem_cons_of_mem h hl)

theorem splitOnChar_length_ge_two {sep : Char} {s : PyStr}
    (hne : s ≠ []) (hlast : s.getLast? = some sep) :
    2 ≤ (splitOnChar sep s).length := by
  induction s with
  | nil => exact absurd rfl hne
  | cons c cs ih =>
    cases cs with
    | nil =>
      simp only [List.getLast?_singleton, Option.some.injEq] at hlast
      subst hlast
      simp [splitOnChar]
    | cons d ds =>
      rw [List.getLast?_cons_cons] at hlast
      have h2 := ih (by simp) hlast
      rcases hr : splitOnChar sep (d :: ds) with _ | ⟨h, t⟩
      · exact absurd hr (splitOnChar_ne_nil sep (d :: ds))
      · rw [hr] at h2
        rw [splitOnChar_cons, hr]
        by_cases hc : c = sep
        · rw [if_pos (by simp [hc])]
          simp only [List.length_cons] at h2 ⊢
          omega
        · rw [if_neg (by simp [hc])]
          simp only [List.headD_cons, List.tail_cons, List.length_cons] at h2 ⊢
          omega

theorem splitOnChar_getLast?_of_ends_sep {sep : Char} {s : PyStr}
    (hwf : s = [] ∨ s.getLast? = some sep) :
    (splitOnChar sep s).getLast? = some [] := by
  induction s with
  | nil => simp [splitOnChar]
  | cons c cs ih =>
    rcases hwf with hwf | hwf
    · exact absurd hwf (by simp)
    · cases cs with
      | nil =>
        simp only [List.getLast?_singleton, Option.some.injEq] at hwf
        subst hwf
        simp [splitOnChar]
      | cons d ds =>
        rw [List.getLast?_cons_cons] at hwf
        have hlast := ih (Or.inr hwf)
        have h2 := splitOnChar_length_ge_two (by simp) hwf
        rcases hr : splitOnChar sep (d :: ds) with _ | ⟨h, t⟩
        · exact absurd hr (splitOnChar_ne_nil sep (d :: ds))
        · rw [hr] at hlast h2
          rw [splitOnChar_cons, hr]
          have ht : t ≠ [] := by
            intro he
            rw [he] at h2
            simp at h2
          by_cases hc : c = sep
          · rw [if_pos (by simp [hc])]
            rw [List.getLast?_cons_cons]
            exact hlast
          · rw [if_neg (by simp [hc])]
            simp only [List.headD_cons, List.tail_cons]
            rcases t with _ | ⟨u, us⟩
            · exact absurd rfl ht
            · rw [List.getLast?_cons_cons] at hlast ⊢
              exact hlast

theorem splitOnChar_append_of_ends_sep {sep : Char} {s : PyStr} (t : PyStr)
    (hwf : s = [] ∨ s.getLast? = some sep) :
    splitOnChar sep (s ++ t) =
      (splitOnChar sep s).dropLast ++ splitOnChar sep t := by
  induction s with
  | nil => simp [splitOnChar]
  | cons c cs ih =>
    rcases hwf with hwf | hwf
    · exact absurd hwf (by simp)
    · cases cs with
      | nil =>
        simp only [List.getLast?_singleton, Option.some.injEq] at hwf
        subst hwf
        simp only [List.cons_append, List.nil_append]
        rw [splitOnChar_cons, if_pos (by simp), splitOnChar_cons, if_pos (by simp)]
        simp [splitOnChar]
      | cons d ds =>
        rw [List.getLast?_cons_cons] at hwf
        have hih := ih (Or.inr hwf)
        have h2 := splitOnChar_length_ge_two (by simp) hwf
        rcases hr : splitOnChar sep (d :: ds) with _ | ⟨h, hs'⟩
        · exact absurd hr (splitOnChar_ne_nil sep (d :: ds))
        · rw [hr] at hih h2
          simp only [List.cons_append] at hih
          have hs'ne : hs' ≠ [] := by
            intro he
            rw [he] at h2
            simp at h2
          simp only [List.cons_append]
          rw [splitOnChar_cons, hih, splitOnChar_cons, hr]
          by_cases hc : c = sep
          · rw [if_pos (by simp [hc]), if_pos (by simp [hc])]
            simp [List.dropLast_cons_of_ne_nil, hs'ne]
          · rw [if_neg (by simp [hc]), if_neg (by simp [hc])]
            rcases hs' with _ | ⟨u, us⟩
            · exact absurd rfl hs'ne
            · simp

theorem splitOnChar_single_line {sep : Char} {l : PyStr} (hnl : sep ∉ l) :
    splitOnChar sep (l ++ [sep]) = [l, []] := by
  induction l with
  | nil => simp [splitOnChar]
  | cons c cs ih =>
    have hc : c ≠ sep := fun he => hnl (he ▸ List.mem_cons_self c cs)
    have hih := ih (fun hm => hnl (List.mem_cons_of_mem c hm))
    simp only [List.cons_append]
    rw [splitOnChar_cons, hih, if_neg (by simp [hc])]
    simp

theorem charOfNat_toNat_upper {m : Nat} (h1 : 65 ≤ m) (h2 : m ≤ 90) :
    (Char.ofNat m).toNat = m := by
  interval_cases m <;> rfl

theorem pyUpperChar_eq (c : Char) :
    pyUpperChar c =
      if 97 ≤ c.toNat ∧ c.toNat ≤ 122 then Char.ofNat (c.toNat - 32) else c := rfl

theorem pyUpperChar_toNat (c : Char) :
    (pyUpperChar c).toNat =
      if 97 ≤ c.toNat ∧ c.toNat ≤ 122 then c.toNat - 32 else c.toNat := by
  rw [pyUpperChar_eq]
  split
  · next h => exact charOfNat_toNat_upper (by omega) (by omega)
  · rfl

theorem pyUpperChar_idem (c : Char) : pyUpperChar (pyUpperChar c) = pyUpperChar c := by
  by_cases h : 97 ≤ c.toNat ∧ c.toNat ≤ 122
  · have ht : (pyUpperChar c).toNat = c.toNat - 32 := by rw [pyUpperChar_toNat, if_pos h]
    rw [pyUpperChar_eq (pyUpperChar c), ht, if_neg (by omega)]
  · have hc : pyUpperChar c = c := by rw [pyUpperChar_eq, if_neg h]
    rw [hc, hc]

theorem isPySpace_pyUpperChar (c : Char) : isPySpace (pyUpperChar c) = isPySpace c := by
  by_cases h : 97 ≤ c.toNat ∧ c.toNat ≤ 122
  · have ht : (pyUpperChar c).toNat = c.toNat - 32 := by rw [pyUpperChar_toNat, if_pos h]
    unfold isPySpace
    rw [ht]
    have h1 : ¬(c.toNat - 32 = 32 ∨ (9 ≤ c.toNat - 32 ∧ c.toNat - 32 ≤ 13) ∨
        (28 ≤ c.toNat - 32 ∧ c.toNat - 32 ≤ 31) ∨ c.toNat - 32 = 133 ∨
        c.toNat - 32 = 160 ∨ c.toNat - 32 = 5760 ∨
        (8192 ≤ c.toNat - 32 ∧ c.toNat - 32 ≤ 8202) ∨ c.toNat - 32 = 8232 ∨
        c.toNat - 32 = 8233 ∨ c.toNat - 32 = 8239 ∨ c.toNat - 32 = 8287 ∨
        c.toNat - 32 = 12288) := by omega
    have h2 : ¬(c.toNat = 32 ∨ (9 ≤ c.toNat ∧ c.toNat ≤ 13) ∨
        (28 ≤ c.toNat ∧ c.toNat ≤ 31) ∨ c.toNat = 133 ∨
        c.toNat = 160 ∨ c.toNat = 5760 ∨
        (8192 ≤ c.toNat ∧ c.toNat ≤ 8202) ∨ c.toNat = 8232 ∨
        c.toNat = 8233 ∨ c.toNat = 8239 ∨ c.toNat = 8287 ∨
        c.toNat = 12288) := by omega
    rw [decide_eq_false h1, decide_eq_false h2]
  · unfold pyUpperChar
    rw [if_neg h]

theorem pyUpperChar_eq_hash_iff (c : Char) : pyUpperChar c = '#' ↔ c = '#' := by
  constructor
  · intro he
    by_cases h : 97 ≤ c.toNat ∧ c.toNat ≤ 122
    · have ht : (pyUpperChar c).toNat = c.toNat - 32 := by rw [pyUpperChar_toNat, if_pos h]
      rw [he] at ht
      have : ('#').toNat = 35 := rfl
      omega
    · unfold pyUpperChar at he
      rwa [if_neg h] at he
  · intro he
    subst he
    rfl

theorem pyUpperChar_eq_nl_iff (c : Char) : pyUpperChar c = '\n' ↔ c = '\n' := by
  constructor
  · intro he
    by_cases h : 97 ≤ c.toNat ∧ c.toNat ≤ 122
    · have ht : (pyUpperChar c).toNat = c.toNat - 32 := by rw [pyUpperChar_toNat, if_pos h]
      rw [he] at ht
      have : ('\n').toNat = 10 := rfl
      omega
    · unfold pyUpperChar at he
      rwa [if_neg h] at he
  · intro he
    subst he
    rfl

theorem mem_rstripWs {c : Char} : ∀ {l : PyStr}, c ∈ rstripWs l → c ∈ l := by
  intro l
  induction l with
  | nil => simp [rstripWs]
  | cons a as ih =>
    intro hm
    simp only [rstripWs] at hm
    split at hm
    · simp at hm
    · rcases List.mem_cons.mp hm with hm | hm
      · simp [hm]
      · exact List.mem_cons_of_mem a (ih hm)

theorem rstripWs_cons_shape (a : Char) (as : PyStr) :
    rstripWs (a :: as) = [] ∨ ∃ t, rstripWs (a :: as) = a :: t := by
  simp only [rstripWs]
  split
  · exact Or.inl rfl
  · exact Or.inr ⟨rstripWs as, rfl⟩

theorem rstripWs_cons (a : Char) (as : PyStr) :
    rstripWs (a :: as) =
      if (rstripWs as).isEmpty && isPySpace a then [] else a :: rstripWs as := rfl

theorem rstripWs_idem (l : PyStr) : rstripWs (rstripWs l) = rstripWs l := by
  induction l with
  | nil => rfl
  | cons a as ih =>
    rw [rstripWs_cons]
    split
    · rfl
    · next h =>
      rw [rstripWs_cons, ih, if_neg h]

theorem rstripWs_map_of_space_eq {f : Char → Char}
    (hf : ∀ c, isPySpace (f c) = isPySpace c) (l : PyStr) :
    rstripWs (l.map f) = (rstripWs l).map f := by
  induction l with
  | nil => rfl
  | cons a as ih =>
    rw [List.map_cons, rstripWs_cons, rstripWs_cons, ih, hf]
    rcases hq : rstripWs as with _ | ⟨x, xs⟩ <;> by_cases hsp : isPySpace a <;>
      simp [hq, hsp]

theorem dropWhile_map_of_space_eq {f : Char → Char}
    (hf : ∀ c, isPySpace (f c) = isPySpace c) (l : PyStr) :
    (l.map f).dropWhile isPySpace = (l.dropWhile isPySpace).map f := by
  induction l with
  | nil => simp
  | cons a as ih =>
    simp only [List.map_cons, List.dropWhile_cons, hf, ih]
    split
    · rfl
    · simp

theorem dropWhile_head_false {p : Char → Bool} :
    ∀ {l : PyStr} {c : Char} {t : PyStr}, l.dropWhile p = c :: t → p c = false := by
  intro l
  induction l with
  | nil => intro c t h; simp at h
  | cons a as ih =>
    intro c t h
    rw [List.dropWhile_cons] at h
    split at h
    · exact ih h
    · next hp =>
      rcases h with ⟨rfl, rfl⟩
      simpa using hp

theorem pyStrip_map_upper (l : PyStr) :
    pyStrip (pyUpper l) = pyUpper (pyStrip l) := by
  unfold pyStrip pyUpper
  rw [dropWhile_map_of_space_eq isPySpace_pyUpperChar,
    rstripWs_map_of_space_eq isPySpace_pyUpperChar]

theorem pyStrip_idem (l : PyStr) : pyStrip (pyStrip l) = pyStrip l := by
  unfold pyStrip
  rcases hd : (l.dropWhile isPySpace) with _ | ⟨c, t⟩
  · rfl
  · have hc : isPySpace c = false := dropWhile_head_false hd
    rcases rstripWs_cons_shape c t with hs | ⟨t', hs⟩
    · rw [hs]; rfl
    · rw [hs]
      have h1 : List.dropWhile isPySpace (c :: t') = c :: t' := by
        rw [List.dropWhile_cons, if_neg (by simp [hc])]
      rw [h1, ← hs, rstripWs_idem]

theorem mem_pyStrip {c : Char} {l : PyStr} (h : c ∈ pyStrip l) : c ∈ l := by
  unfold pyStrip at h
  exact (List.dropWhile_sublist isPySpace).mem (mem_rstripWs h)

theorem pyStrip_hash_head (rest : PyStr) :
    pyStrip ('#' :: rest) = '#' :: rstripWs rest := by
  unfold pyStrip
  have h1 : isPySpace '#' = false := by decide
  rw [List.dropWhile_cons, if_neg (by simp [h1]), rstripWs_cons,
    if_neg (by simp [h1])]

end PyStrLemmas

/-! ## SHA-256 (`hashlib.sha256`), hex digests and UTF-8 encoding -/

/-- UTF-8 encoding of one character (`str.encode()` applies this to every
character; a byte is modelled as a `Nat` below 256). -/
def utf8Char (c : Char) : List Nat :=
  let n := c.toNat
  if n < 128 then [n]
  else if n < 2048 then [192 + n / 64, 128 + n % 64]
  else if n < 65536 then [224 + n / 4096, 128 + n / 64 % 64, 128 + n % 64]
  else [240 + n / 262144, 128 + n / 4096 % 64, 128 + n / 64 % 64, 128 + n % 64]

/-- Python `s.encode()` (UTF-8). -/
def utf8Encode (s : PyStr) : List Nat := (s.map utf8Char).flatten

/-- 32-bit right rotation. -/
def rotr32 (n x : Nat) : Nat := ((x >>> n) ||| (x <<< (32 - n))) % 4294967296

/-- The running hash state of SHA-256: eight 32-bit words. -/
structure Sha256State where
  a : Nat
  b : Nat
  c : Nat
  d : Nat
  e : Nat
  f : Nat
  g : Nat
  h : Nat
deriving Repr, DecidableEq

/-- The SHA-256 round constants. -/
def sha256K : List Nat :=
  [1116352408, 1899447441, 3049323471, 3921009573, 961987163,
   1508970993, 2453635748, 2870763221, 3624381080, 310598401,
   607225278, 1426881987, 1925078388, 2162078206, 2614888103,
   3248222580, 3835390401, 4022224774, 264347078, 604807628,
   770255983, 1249150122, 1555081692, 1996064986, 2554220882,
   2821834349, 2952996808, 3210313671, 3336571891, 3584528711,
   113926993, 338241895, 666307205, 773529912, 1294757372,
   1396182291, 1695183700, 1986661051, 2177026350, 2456956037,
   2730485921, 2820302411, 3259730800, 3345764771, 3516065817,
   3600352804, 4094571909, 275423344, 430227734, 506948616,
   659060556, 883997877, 958139571, 1322822218, 1537002063,
   1747873779, 1955562222, 2024104815, 2227730452, 2361852424,
   2428436474, 2756734187, 3204031479, 3329325298]

/-- Extend a message schedule by one word (`w.length` is the index of the
word being produced). -/
def extendW (w : List Nat) : List Nat :=
  let i := w.length
  let s0 := (rotr32 7 (w.getD (i - 15) 0)) ^^^ (rotr32 18 (w.getD (i - 15) 0)) ^^^
    ((w.getD (i - 15) 0) >>> 3)
  let s1 := (rotr32 17 (w.getD (i - 2) 0)) ^^^ (rotr32 19 (w.getD (i - 2) 0)) ^^^
    ((w.getD (i - 2) 0) >>> 10)
  w ++ [(w.getD (i - 16) 0 + s0 + w.getD (i - 7) 0 + s1) % 4294967296]

/-- Run `extendW` the given number of times (48 for SHA-256). -/
def buildW : Nat → List Nat → List Nat
  | 0, w => w
  | n + 1, w => buildW n (extendW w)

/-- One SHA-256 compression round. -/
def sha256Round (st : Sha256State) (kw : Nat × Nat) : Sha256State :=
  let S1 := (rotr32 6 st.e) ^^^ (rotr32 11 st.e) ^^^ (rotr32 25 st.e)
  let ch := (st.e &&& st.f) ^^^ ((st.e ^^^ 4294967295) &&& st.g)
  let t1 := (st.h + S1 + ch + kw.1 + kw.2) % 4294967296
  let S0 := (rotr32 2 st.a) ^^^ (rotr32 13 st.a) ^^^ (rotr32 22 st.a)
  let mj := (st.a &&& st.b) ^^^ (st.a &&& st.c) ^^^ (st.b &&& st.c)
  let t2 := (S0 + mj) % 4294967296
  ⟨(t1 + t2) % 4294967296, st.a, st.b, st.c,
   (st.d + t1) % 4294967296, st.e, st.f, st.g⟩

/-- Big-endian bytes of a value, `n` bytes wide. -/
def beBytes : Nat → Nat → List Nat
  | 0, _ => []
  | n + 1, v => beBytes n (v / 256) ++ [v % 256]

/-- Group a 64-byte block into sixteen big-endian 32-bit words. -/
def toWords : List Nat → List Nat
  | b0 :: b1 :: b2 :: b3 :: rest =>
    (b0 * 16777216 + b1 * 65536 + b2 * 256 + b3) :: toWords rest
  | _ => []

/-- Compress one 64-byte block into the state. -/
def processBlock (H : Sha256State) (block : List Nat) : Sha256State :=
  let ws := buildW 48 (toWords block)
  let st := (sha256K.zip ws).foldl sha256Round H
  ⟨(H.a + st.a) % 4294967296, (H.b + st.b) % 4294967296,
   (H.c + st.c) % 4294967296, (H.d + st.d) % 4294967296,
   (H.e + st.e) % 4294967296, (H.f + st.f) % 4294967296,
   (H.g + st.g) % 4294967296, (H.h + st.h) % 4294967296⟩

/-- SHA-256 padding: a `0x80` byte, zeros to 56 mod 64, then the bit length
as a big-endian 64-bit value. -/
def padMsg (msg : List Nat) : List Nat :=
  msg ++ [128] ++ List.replicate ((119 - msg.length % 64) % 64) 0 ++
    beBytes 8 (msg.length * 8)

/-- Fold the compression function over consecutive 64-byte blocks, with the
number of remaining blocks as structural fuel. -/
def processBlocksF : Nat → Sha256State → List Nat → Sha256State
  | 0, H, _ => H
  | fuel + 1, H, l =>
    if l.isEmpty then H
    else processBlocksF fuel (processBlock H (l.take 64)) (l.drop 64)

/-- The SHA-256 digest (32 bytes) of a byte string. -/
def sha256Bytes (msg : List Nat) : List Nat :=
  let H0 : Sha256State :=
    ⟨1779033703, 3144134277, 1013904242, 2773480762,
     1359893119, 2600822924, 528734635, 1541459225⟩
  let p := padMsg msg
  let F := processBlocksF (p.length / 64) H0 p
  beBytes 4 F.a ++ beBytes 4 F.b ++ beBytes 4 F.c ++ beBytes 4 F.d ++
    beBytes 4 F.e ++ beBytes 4 F.f ++ beBytes 4 F.g ++ beBytes 4 F.h

/-- One lowercase hex digit (`0..15`). -/
def hexChar (n : Nat) : Char := Char.ofNat (if n < 10 then 48 + n else 87 + n)

/-- The two lowercase hex digits of one byte (`'%02x'`). -/
def byteHex (b : Nat) : List Char := [hexChar (b / 16 % 16), hexChar (b % 16)]

/-- Python `hashlib.sha256(...).hexdigest()` as a character list: the
lowercase hex rendering of the digest bytes. -/
def hexDigestChars (bs : List Nat) : PyStr := (bs.map byteHex).flatten

/-- The fingerprint-hashing pipeline shared by every branch of
`get_current_hwid`: `hashlib.sha256(s.encode()).hexdigest()[:32].upper()`. -/
def hashHwid (s : PyStr) : PyStr :=
  pyUpper (List.take 32 (hexDigestChars (sha256Bytes (utf8Encode s))))

/-- A character is an uppercase hexadecimal digit (`0-9` or `A-F`). -/
def isUpperHexDigit (c : Char) : Bool :=
  decide ((48 ≤ c.toNat ∧ c.toNat ≤ 57) ∨ (65 ≤ c.toNat ∧ c.toNat ≤ 70))

section HashLemmas

theorem beBytes_length (n v : Nat) : (beBytes n v).length = n := by
  induction n generalizing v with
  | zero => rfl
  | succ n ih => simp [beBytes, ih]

theorem sha256Bytes_length (msg : List Nat) : (sha256Bytes msg).length = 32 := by
  unfold sha256Bytes
  simp [beBytes_length]

theorem hexDigestChars_length (bs : List Nat) :
    (hexDigestChars bs).length = 2 * bs.length := by
  induction bs with
  | nil => rfl
  | cons b bs ih =>
    simp only [hexDigestChars, List.map_cons, List.flatten_cons] at ih ⊢
    simp only [List.length_append, ih, byteHex, List.length_cons, List.length_nil,
      List.length_cons]
    ring

theorem take_hexDigestChars (k : Nat) (bs : List Nat) :
    List.take (2 * k) (hexDigestChars bs) = hexDigestChars (bs.take k) := by
  induction bs generalizing k with
  | nil => simp [hexDigestChars]
  | cons b bs ih =>
    cases k with
    | zero => simp [hexDigestChars]
    | succ k =>
      simp only [hexDigestChars, List.map_cons, List.flatten_cons, List.take_succ_cons]
      have h2 : 2 * (k + 1) = ((2 * k) + 1) + 1 := by ring
      rw [h2]
      simp only [byteHex, List.cons_append, List.nil_append, List.take_succ_cons]
      exact congrArg _ (congrArg _ (ih k))

theorem hexChar_upper_isHex {n : Nat} (h : n < 16) :
    isUpperHexDigit (pyUpperChar (hexChar n)) = true := by
  interval_cases n <;> decide

theorem mem_hexDigestChars_isHex {c : Char} {bs : List Nat}
    (h : c ∈ hexDigestChars bs) : isUpperHexDigit (pyUpperChar c) = true := by
  induction bs with
  | nil => simp [hexDigestChars] at h
  | cons b bs ih =>
    simp only [hexDigestChars, List.map_cons, List.flatten_cons, List.mem_append] at h
    rcases h with h | h
    · simp only [byteHex, List.mem_cons, List.mem_singleton] at h
      rcases h with h | h | h
      · rw [h]; exact hexChar_upper_isHex (Nat.mod_lt _ (by omega))
      · rw [h]; exact hexChar_upper_isHex (Nat.mod_lt _ (by omega))
      · simp at h
    · exact ih h

theorem hashHwid_length (s : PyStr) : (hashHwid s).length = 32 := by
  unfold hashHwid pyUpper
  rw [List.length_map, List.length_take, hexDigestChars_length, sha256Bytes_length]
  rfl

theorem hashHwid_isHex (s : PyStr) :
    ∀ c ∈ hashHwid s, isUpperHexDigit c = true := by
  intro c hc
  unfold hashHwid pyUpper at hc
  rcases List.mem_map.mp hc with ⟨d, hd, rfl⟩
  exact mem_hexDigestChars_isHex (List.take_subset _ _ hd)

theorem hashHwid_eq_first16 (s : PyStr) :
    hashHwid s =
      pyUpper (hexDigestChars ((sha256Bytes (utf8Encode s)).take 16)) := by
  unfold hashHwid
  rw [show (32 : Nat) = 2 * 16 from rfl, take_hexDigestChars]

end HashLemmas

/-! ## The fingerprint generator (`get_current_hwid` and its probes)

The OS boundary is modelled explicitly: each `subprocess.check_output` or
file read that a probe performs is an `Option PyStr` in `SysEnv` (`none`
models the call raising, which the probe's bare `except` turns into "skip
this component"), and `raisesInBody` models an exception reaching
`get_current_hwid`'s own `try`/`except` (the only way the
node/machine/processor fallback is taken). -/

/-- The OS-observable facts `get_current_hwid` consumes. -/
structure SysEnv where
  /-- `platform.system()`. -/
  system : PyStr
  /-- `platform.node()`. -/
  node : PyStr
  /-- `platform.machine()`. -/
  machine : PyStr
  /-- `platform.processor()`. -/
  proc : PyStr
  /-- Output of `wmic cpu get ProcessorId /value` (`none` = the call raised). -/
  winCpuOut : Option PyStr
  /-- Output of `wmic baseboard get SerialNumber /value`. -/
  winMbOut : Option PyStr
  /-- Output of `wmic bios get SerialNumber /value`. -/
  winBiosOut : Option PyStr
  /-- Contents of `/etc/machine-id`. -/
  linMachineId : Option PyStr
  /-- Output of `cat /proc/cpuinfo`. -/
  linCpuInfo : Option PyStr
  /-- Contents of `/sys/class/dmi/id/product_uuid`. -/
  linDmiUuid : Option PyStr
  /-- First `system_profiler SPHardwareDataType` output (Hardware UUID probe). -/
  macOut1 : Option PyStr
  /-- Second `system_profiler SPHardwareDataType` output (Serial Number probe). -/
  macOut2 : Option PyStr
  /-- An exception reaches `get_current_hwid`'s own handler. -/
  raisesInBody : Bool

/-- A probe's contribution: nothing if its OS call raised, else one
component computed from the output. -/
def probeComp (o : Option PyStr) (f : PyStr → PyStr) : List PyStr :=
  match o with
  | none => []
  | some out => [f out]

/-- Post-processing of one `wmic ... /value` output:
`s.strip()` then `split('=')[-1]` when it contains `'='`. -/
def parseWmic (out : PyStr) : PyStr :=
  let s := pyStrip out
  if s.contains '=' then (splitOnChar '=' s).getLastD [] else s

/-- `_get_windows_hwid`: CPU id, motherboard serial, BIOS serial. -/
def getWindowsHwid (env : SysEnv) : List PyStr :=
  probeComp env.winCpuOut parseWmic ++ probeComp env.winMbOut parseWmic ++
    probeComp env.winBiosOut parseWmic

/-- The `/proc/cpuinfo` probe: the first line containing `'processor'` and
`':'` contributes `line.split(':')[1].strip()`; the empty match list also
covers the caught-exception path. -/
def parseCpuInfo (out : PyStr) : List PyStr :=
  match (splitNl out).find?
      (fun l => containsSub l (str "processor") && l.contains ':') with
  | none => []
  | some l =>
    match splitOnChar ':' l with
    | _ :: v :: _ => [pyStrip v]
    | _ => []

/-- `_get_linux_hwid`: machine-id, first cpuinfo processor line, DMI UUID. -/
def getLinuxHwid (env : SysEnv) : List PyStr :=
  probeComp env.linMachineId pyStrip ++
    (match env.linCpuInfo with
     | none => []
     | some out => parseCpuInfo out) ++
    probeComp env.linDmiUuid pyStrip

/-- One `system_profiler` field probe: the first line containing the
keyword contributes `line.split(':')[1].strip()` (no second piece models
the `IndexError` swallowed by the probe's `except`). -/
def profilerField (kw : PyStr) (o : Option PyStr) : List PyStr :=
  match o with
  | none => []
  | some out =>
    match (splitNl out).find? (fun l => containsSub l kw) with
    | none => []
    | some l =>
      match splitOnChar ':' l with
      | _ :: v :: _ => [pyStrip v]
      | _ => []

/-- `_get_macos_hwid`: hardware UUID and serial number. -/
def getMacosHwid (env : SysEnv) : List PyStr :=
  profilerField (str "Hardware UUID") env.macOut1 ++
    profilerField (str "Serial Number") env.macOut2

/-- `_get_generic_hwid`: node, machine, processor. -/
def getGenericHwid (env : SysEnv) : List PyStr :=
  [env.node, env.machine, env.proc]

/-- The platform dispatch of `get_current_hwid` (its `hwid_components`). -/
def collectComponents (env : SysEnv) : List PyStr :=
  let system := pyLower env.system
  if system == str "windows" then getWindowsHwid env
  else if system == str "linux" then getLinuxHwid env
  else if system == str "darwin" then getMacosHwid env
  else getGenericHwid env

/-- `"|".join(filter(None, hwid_components))`. -/
def pipeJoin (cs : List PyStr) : PyStr :=
  joinSep [ '|' ] (cs.filter (fun c => !c.isEmpty))

/-- `get_current_hwid`: hash the joined components, or — only when an
exception reaches the method's own handler — hash the concatenation
`f"{platform.node()}{platform.machine()}{platform.processor()}"`. -/
def get_current_hwid (env : SysEnv) : PyStr :=
  if env.raisesInBody then hashHwid (env.node ++ env.machine ++ env.proc)
  else hashHwid (pipeJoin (collectComponents env))

/-! ## The authorization store

The persisted allow-list file is `Option PyStr` (`none`: it does not
exist; `some c`: its exact text, so "unchanged byte-for-byte" is equality
of this value).  The current machine's fingerprint (the source's
`self.get_current_hwid()`) and the compiled-in `MASTER_HWID` are explicit
parameters `current` and `master`.  Each mutation returns the source's
`bool` together with the new file state and the `print`ed diagnostics. -/

/-- A line of the file survives `_load_authorized_hwids`'s
`if line and not line.startswith('#')` test (after `strip()`). -/
def keepLine (l : PyStr) : Bool := !l.isEmpty && !startsWithHash l

/-- `_load_authorized_hwids` applied to existing file text: strip each
line, keep non-blank non-comment lines, uppercase them, in file order. -/
def loadLines (content : PyStr) : List PyStr :=
  (((splitNl content).map pyStrip).filter keepLine).map pyUpper

/-- `_load_authorized_hwids`: a missing file yields the empty list. -/
def loadAuthorizedHwids (file : Option PyStr) : List PyStr :=
  match file with
  | none => []
  | some content => loadLines content

/-- `is_authorized`: membership of the current fingerprint in the loaded
list.  The source performs no writes here, which the result type records:
there is no file component to the result. -/
def is_authorized (current : PyStr) (file : Option PyStr) : Bool :=
  (loadAuthorizedHwids file).contains current

/-- `is_master`: equality of the current fingerprint and `MASTER_HWID`. -/
def is_master (current master : PyStr) : Bool := current == master

/-- Result of `add_hwid` / `remove_hwid`: the returned `bool`, the file
state after the call, and the `print`ed diagnostic lines. -/
structure MutResult where
  ok : Bool
  file : Option PyStr
  printed : List PyStr
deriving Repr, DecidableEq

/-- Result of `list_authorized_hwids`. -/
structure ListResult where
  items : List PyStr
  printed : List PyStr
deriving Repr, DecidableEq

/-- The header comment lines `_create_authorized_file` and `remove_hwid`
write (the `Generated on` line interpolates `platform.node()`). -/
def fileHeader (master node : PyStr) : PyStr :=
  linesJoin [str "# Authorized Hardware IDs",
    str "# Generated on: " ++ node,
    str "# Master HWID: " ++ master]

/-- `add_hwid`: master-only; uppercase the argument; append one line if
absent (mode `'a'` creates the file when missing), no-op if present. -/
def add_hwid (current master : PyStr) (file : Option PyStr) (hwid : PyStr) :
    MutResult :=
  if !(is_master current master) then
    ⟨false, file, [str "Error: Only master HWID can add new HWIDs"]⟩
  else
    let authorized := loadAuthorizedHwids file
    let h := pyUpper hwid
    if !(authorized.contains h) then
      ⟨true, some (file.getD [] ++ h ++ ['\n']),
        [str "HWID " ++ h ++ str " added to authorized list"]⟩
    else
      ⟨true, file, [str "HWID " ++ h ++ str " already authorized"]⟩

/-- `remove_hwid`: master-only; the master entry is protected; removes the
first matching entry and rewrites the file as header plus the remaining
entries, `NotFound` (a `False` return) otherwise. -/
def remove_hwid (current master : PyStr) (file : Option PyStr) (hwid : PyStr)
    (node : PyStr) : MutResult :=
  if !(is_master current master) then
    ⟨false, file, [str "Error: Only master HWID can remove HWIDs"]⟩
  else if pyUpper hwid == master then
    ⟨false, file, [str "Error: Cannot remove master HWID"]⟩
  else
    let authorized := loadAuthorizedHwids file
    let h := pyUpper hwid
    if authorized.contains h then
      ⟨true, some (fileHeader master node ++ linesJoin (authorized.erase h)),
        [str "HWID " ++ h ++ str " removed from authorized list"]⟩
    else
      ⟨false, file, [str "HWID " ++ h ++ str " not found in authorized list"]⟩

/-- `list_authorized_hwids`: master-only; returns the loaded list, or `[]`
with a diagnostic for a non-master caller. -/
def list_authorized_hwids (current master : PyStr) (file : Option PyStr) :
    ListResult :=
  if !(is_master current master) then
    ⟨[], [str "Error: Only master HWID can list authorized HWIDs"]⟩
  else
    ⟨loadAuthorizedHwids file, []⟩

/-- The file is absent, empty or newline-terminated — the shape every file
this program itself writes has. -/
def wfFile (file : Option PyStr) : Bool :=
  match file with
  | none => true
  | some c => c.isEmpty || (c.getLast? == some '\n')

/-- A string that survives a load round trip as itself: non-empty, not a
comment, single-line, and carrying no surrounding whitespace. -/
def validEntry (u : PyStr) : Bool :=
  !u.isEmpty && !startsWithHash u && !(decide ('\n' ∈ u)) && (pyStrip u == u)

/-- What one raw line contributes to the loaded list. -/
def maybeEntry (l : PyStr) : List PyStr :=
  if keepLine (pyStrip l) then [pyUpper (pyStrip l)] else []

section LoadLemmas

theorem pyUpper_idem (s : PyStr) : pyUpper (pyUpper s) = pyUpper s := by
  unfold pyUpper
  rw [List.map_map]
  exact List.map_congr_left (fun c _ => pyUpperChar_idem c)

theorem maybeEntry_nil : maybeEntry [] = [] := rfl

theorem loadLines_eq_flatten (content : PyStr) :
    loadLines content = ((splitNl content).map maybeEntry).flatten := by
  unfold loadLines
  generalize splitNl content = ls
  induction ls with
  | nil => rfl
  | cons l ls ih =>
    simp only [List.map_cons, List.filter_cons, List.flatten_cons, maybeEntry]
    split
    · next h => simp only [List.map_cons, ih, List.singleton_append]
    · next h => simp only [ih]; simp

theorem wf_of_some {c : PyStr} (hwf : wfFile (some c) = true) :
    c = [] ∨ c.getLast? = some '\n' := by
  simp only [wfFile, Bool.or_eq_true, List.isEmpty_iff, beq_iff_eq] at hwf
  exact hwf

theorem loadLines_append {c : PyStr} (s : PyStr)
    (hwf : c = [] ∨ c.getLast? = some '\n') :
    loadLines (c ++ s) = loadLines c ++ loadLines s := by
  rw [loadLines_eq_flatten, loadLines_eq_flatten, loadLines_eq_flatten]
  unfold splitNl
  rw [splitOnChar_append_of_ends_sep s hwf]
  have hne : splitOnChar '\n' c ≠ [] := splitOnChar_ne_nil '\n' c
  have hlast : (splitOnChar '\n' c).getLast hne = [] := by
    have h1 := splitOnChar_getLast?_of_ends_sep hwf
    rw [List.getLast?_eq_getLast _ hne] at h1
    exact Option.some.inj h1
  have hdecomp : (splitOnChar '\n' c).dropLast ++ [([] : PyStr)] =
      splitOnChar '\n' c := by
    conv_rhs => rw [← List.dropLast_append_getLast hne]
    rw [hlast]
  conv_rhs => rw [← hdecomp]
  simp [maybeEntry_nil]

theorem loadLines_single_line {u : PyStr} (hnl : '\n' ∉ u) :
    loadLines (u ++ ['\n']) = maybeEntry u := by
  rw [loadLines_eq_flatten]
  unfold splitNl
  rw [splitOnChar_single_line hnl]
  simp [maybeEntry_nil]

theorem linesJoin_append (ls₁ ls₂ : List PyStr) :
    linesJoin (ls₁ ++ ls₂) = linesJoin ls₁ ++ linesJoin ls₂ := by
  induction ls₁ with
  | nil => rfl
  | cons l ls ih => simp [linesJoin, ih]

theorem loadLines_linesJoin {ls : List PyStr} (h : ∀ l ∈ ls, '\n' ∉ l) :
    loadLines (linesJoin ls) = (ls.map maybeEntry).flatten := by
  induction ls with
  | nil => rfl
  | cons l ls ih =>
    have hcons : linesJoin (l :: ls) = (l ++ ['\n']) ++ linesJoin ls := by
      simp [linesJoin]
    rw [hcons, loadLines_append _ (Or.inr (List.getLast?_concat l)),
      loadLines_single_line (h l (List.mem_cons_self l ls)),
      ih (fun x hx => h x (List.mem_cons_of_mem l hx))]
    simp

theorem keep_of_hash_head {l : PyStr} (h : startsWithHash l = true) :
    keepLine (pyStrip l) = false := by
  rcases l with _ | ⟨c, t⟩
  · simp [startsWithHash] at h
  · simp only [startsWithHash, beq_iff_eq] at h
    subst h
    rw [pyStrip_hash_head]
    simp [keepLine, startsWithHash]

theorem maybeEntry_of_valid {u : PyStr} (hv : validEntry u = true) :
    maybeEntry u = [pyUpper u] := by
  simp only [validEntry, Bool.and_eq_true, Bool.not_eq_true', beq_iff_eq] at hv
  obtain ⟨⟨⟨h1, h2⟩, h3⟩, h4⟩ := hv
  unfold maybeEntry
  rw [h4, if_pos (by simp [keepLine, h1, h2])]

theorem loaded_entry_spec {content : PyStr} :
    ∀ e ∈ loadLines content, validEntry e = true ∧ pyUpper e = e := by
  intro e he
  unfold loadLines at he
  rcases List.mem_map.mp he with ⟨y, hy, rfl⟩
  rcases List.mem_filter.mp hy with ⟨hy', hkeep⟩
  rcases List.mem_map.mp hy' with ⟨l, hl, rfl⟩
  have hnl : '\n' ∉ l := mem_splitOnChar_not_sep l hl
  simp only [keepLine, Bool.and_eq_true, Bool.not_eq_true'] at hkeep
  obtain ⟨hne, hhash⟩ := hkeep
  have hupper : pyUpper (pyUpper (pyStrip l)) = pyUpper (pyStrip l) := pyUpper_idem _
  have hnl' : '\n' ∉ pyUpper (pyStrip l) := by
    intro hm
    rcases List.mem_map.mp hm with ⟨d, hd, hd'⟩
    exact hnl (mem_pyStrip ((pyUpperChar_eq_nl_iff d).mp hd' ▸ hd))
  have hstrip : pyStrip (pyUpper (pyStrip l)) = pyUpper (pyStrip l) := by
    rw [pyStrip_map_upper, pyStrip_idem]
  have hfact3 : decide ('\n' ∈ pyUpper (pyStrip l)) = false := decide_eq_false hnl'
  have hex : ∃ c t, pyStrip l = c :: t := by
    rcases hq : pyStrip l with _ | ⟨c, t⟩
    · rw [hq] at hne
      simp at hne
    · exact ⟨c, t, rfl⟩
  obtain ⟨c, t, hs⟩ := hex
  rw [hs] at hhash
  have hch : c ≠ '#' := by simpa [startsWithHash] using hhash
  have hfact1 : (pyUpper (pyStrip l)).isEmpty = false := by
    rw [hs]
    simp [pyUpper]
  have hfact2 : startsWithHash (pyUpper (pyStrip l)) = false := by
    rw [hs]
    simp only [pyUpper, List.map_cons, startsWithHash]
    rw [beq_eq_false_iff_ne]
    exact fun hc => hch ((pyUpperChar_eq_hash_iff c).mp hc)
  refine ⟨?_, hupper⟩
  simp [validEntry, hfact1, hfact2, hfact3, hstrip]

theorem nil_not_mem_load (file : Option PyStr) :
    ([] : PyStr) ∉ loadAuthorizedHwids file := by
  intro hm
  rcases file with _ | c
  · simp [loadAuthorizedHwids] at hm
  · have := (loaded_entry_spec _ hm).1
    simp [validEntry] at this

theorem hash_head_not_mem_load {u : PyStr} (h : startsWithHash u = true)
    (file : Option PyStr) : u ∉ loadAuthorizedHwids file := by
  intro hm
  rcases file with _ | c
  · simp [loadAuthorizedHwids] at hm
  · have hv := (loaded_entry_spec _ hm).1
    simp only [validEntry, Bool.and_eq_true, Bool.not_eq_true'] at hv
    rw [h] at hv
    simp at hv

theorem load_append_entry {file : Option PyStr} {u : PyStr}
    (hwf : wfFile file = true) (hv : validEntry u = true) :
    loadAuthorizedHwids (some (file.getD [] ++ u ++ ['\n'])) =
      loadAuthorizedHwids file ++ [pyUpper u] := by
  have hnl : '\n' ∉ u := by
    simp only [validEntry, Bool.and_eq_true, Bool.not_eq_true',
      decide_eq_false_iff_not] at hv
    exact hv.1.2
  rcases file with _ | c
  · simp only [Option.getD_none, List.nil_append, loadAuthorizedHwids]
    rw [loadLines_single_line hnl, maybeEntry_of_valid hv]
  · simp only [Option.getD_some, loadAuthorizedHwids]
    rw [List.append_assoc, loadLines_append _ (wf_of_some hwf),
      loadLines_single_line hnl, maybeEntry_of_valid hv]

theorem load_append_skipped {file : Option PyStr} {u : PyStr}
    (hwf : wfFile file = true) (hu : u = [] ∨ startsWithHash u = true)
    (hnl : '\n' ∉ u) :
    loadAuthorizedHwids (some (file.getD [] ++ u ++ ['\n'])) =
      loadAuthorizedHwids file := by
  have hme : maybeEntry u = [] := by
    rcases hu with hu | hu
    · rw [hu]; rfl
    · unfold maybeEntry
      rw [keep_of_hash_head hu]
      rfl
  rcases file with _ | c
  · simp only [Option.getD_none, List.nil_append, loadAuthorizedHwids]
    rw [loadLines_single_line hnl, hme]
  · simp only [Option.getD_some, loadAuthorizedHwids]
    rw [List.append_assoc, loadLines_append _ (wf_of_some hwf),
      loadLines_single_line hnl, hme, List.append_nil]

end LoadLemmas

/-! ## The diagnostic messages, named for the error kinds of the spec -/

/-- The `PermissionDenied` diagnostic of `add_hwid`. -/
def permAddMsg : PyStr := str "Error: Only master HWID can add new HWIDs"

/-- The `PermissionDenied` diagnostic of `remove_hwid`. -/
def permRemoveMsg : PyStr := str "Error: Only master HWID can remove HWIDs"

/-- The `ProtectedEntry` diagnostic of `remove_hwid`. -/
def protectedEntryMsg : PyStr := str "Error: Cannot remove master HWID"

/-- The `NotFound` diagnostic of `remove_hwid`. -/
def notFoundMsg (h : PyStr) : PyStr :=
  str "HWID " ++ h ++ str " not found in authorized list"

/-- The success diagnostic of a fresh `add_hwid`. -/
def addedMsg (h : PyStr) : PyStr := str "HWID " ++ h ++ str " added to authorized list"

/-- The success diagnostic of an idempotent `add_hwid`. -/
def alreadyMsg (h : PyStr) : PyStr := str "HWID " ++ h ++ str " already authorized"

/-- The success diagnostic of `remove_hwid`. -/
def removedMsg (h : PyStr) : PyStr :=
  str "HWID " ++ h ++ str " removed from authorized list"

/-- The `PermissionDenied` diagnostic of `list_authorized_hwids`. -/
def permListMsg : PyStr := str "Error: Only master HWID can list authorized HWIDs"

section StoreLemmas

theorem contains_true_iff (l : List PyStr) (a : PyStr) :
    l.contains a = true ↔ a ∈ l := by simp

theorem contains_false_iff (l : List PyStr) (a : PyStr) :
    l.contains a = false ↔ a ∉ l := by simp

theorem flatten_map_eq_self {f : PyStr → List PyStr} :
    ∀ {l : List PyStr}, (∀ e ∈ l, f e = [e]) → (l.map f).flatten = l := by
  intro l
  induction l with
  | nil => intro _; rfl
  | cons e es ih =>
    intro hf
    simp only [List.map_cons, List.flatten_cons, hf e (List.mem_cons_self e es),
      ih (fun x hx => hf x (List.mem_cons_of_mem e hx)), List.singleton_append]

theorem loaded_entry_spec_file {file : Option PyStr} :
    ∀ e ∈ loadAuthorizedHwids file, validEntry e = true ∧ pyUpper e = e := by
  rcases file with _ | c
  · intro e he
    simp [loadAuthorizedHwids] at he
  · exact fun e he => loaded_entry_spec e he

theorem nl_not_mem_pyUpper {s : PyStr} (h : '\n' ∉ s) : '\n' ∉ pyUpper s := by
  intro hm
  rcases List.mem_map.mp hm with ⟨d, hd, hd'⟩
  exact h (((pyUpperChar_eq_nl_iff d).mp hd') ▸ hd)

/-- Loading a file freshly rewritten as header lines plus loaded entries
recovers exactly those entries. -/
theorem load_rewrite_roundtrip (master node : PyStr) (entries : List PyStr)
    (hm : '\n' ∉ master) (hn : '\n' ∉ node)
    (he : ∀ e ∈ entries, validEntry e = true ∧ pyUpper e = e) :
    loadAuthorizedHwids (some (fileHeader master node ++ linesJoin entries)) =
      entries := by
  have hjoin : fileHeader master node ++ linesJoin entries =
      linesJoin ([str "# Authorized Hardware IDs",
        str "# Generated on: " ++ node,
        str "# Master HWID: " ++ master] ++ entries) := by
    rw [linesJoin_append]
    rfl
  have hnl : ∀ l ∈ ([str "# Authorized Hardware IDs",
      str "# Generated on: " ++ node,
      str "# Master HWID: " ++ master] ++ entries), '\n' ∉ l := by
    intro l hl
    rcases List.mem_append.mp hl with hl | hl
    · simp only [List.mem_cons, List.not_mem_nil, or_false] at hl
      rcases hl with rfl | rfl | rfl
      · decide
      · 
        intro hmem
        rcases List.mem_append.mp hmem with hx | hx
        · revert hx; decide
        · exact hn hx
      · intro hmem
        rcases List.mem_append.mp hmem with hx | hx
        · revert hx; decide
        · exact hm hx
    · intro hmem
      have := (he l hl).1
      simp only [validEntry, Bool.and_eq_true, Bool.not_eq_true',
        decide_eq_false_iff_not] at this
      exact this.1.2 hmem
  show loadAuthorizedHwids (some (fileHeader master node ++ linesJoin entries)) =
    entries
  simp only [loadAuthorizedHwids]
  rw [hjoin, loadLines_linesJoin hnl]
  have hheads : ∀ h₀ ∈ [str "# Authorized Hardware IDs",
      str "# Generated on: " ++ node,
      str "# Master HWID: " ++ master], maybeEntry h₀ = [] := by
    intro h₀ hh
    have hhash : startsWithHash h₀ = true := by
      simp only [List.mem_cons, List.not_mem_nil, or_false] at hh
      rcases hh with rfl | rfl | rfl
      · rfl
      · rfl
      · rfl
    unfold maybeEntry
    rw [keep_of_hash_head hhash]
    simp
  rw [List.map_append, List.flatten_append]
  rw [show List.map maybeEntry [str "# Authorized Hardware IDs",
      str "# Generated on: " ++ node,
      str "# Master HWID: " ++ master] =
    [[], [], []] from by
      simp only [List.map_cons, List.map_nil]
      rw [hheads _ (by simp), hheads _ (by simp), hheads _ (by simp)]]
  rw [flatten_map_eq_self (fun e hx => by
    rw [maybeEntry_of_valid (he e hx).1, (he e hx).2])]
  rfl

end StoreLemmas

/-! ## The claims -/

/-- C1: `is_authorized` returns true exactly when the current fingerprint
is a member of the set loaded (case-normalised to uppercase) from the
persisted file; the operation performs no writes (its result carries no
file component, as the source's method body contains no write); in
particular, with the loaded list exactly `[F1, F2]` it accepts `F1` and
rejects `F3`. -/
theorem c1_is_authorized_membership :
    (∀ (current : PyStr) (file : Option PyStr),
      is_authorized current file = true ↔ current ∈ loadAuthorizedHwids file) ∧
    (∀ file : Option PyStr,
      loadAuthorizedHwids file = [str "AAAA1111", str "BBBB2222"] →
        is_authorized (str "AAAA1111") file = true ∧
        is_authorized (str "CCCC3333") file = false) := by
  constructor
  · intro current file
    unfold is_authorized
    exact contains_true_iff _ _
  · intro file h
    unfold is_authorized
    rw [h]
    exact ⟨by decide, by decide⟩

/-- Witness for C1 at a concrete two-entry store. -/
theorem c1_witness :
    loadAuthorizedHwids (some (str "AAAA1111\nBBBB2222\n")) =
      [str "AAAA1111", str "BBBB2222"] ∧
    is_authorized (str "AAAA1111") (some (str "AAAA1111\nBBBB2222\n")) = true ∧
    is_authorized (str "CCCC3333") (some (str "AAAA1111\nBBBB2222\n")) = false := by
  refine ⟨by decide, ?_⟩
  exact c1_is_authorized_membership.2 (some (str "AAAA1111\nBBBB2222\n")) (by decide)

/-- C4: for a caller whose current fingerprint differs from the master,
`add_hwid` and `remove_hwid` both fail (returning `False` with the
`PermissionDenied` diagnostic) and leave the allow-list file unchanged
byte-for-byte. -/
theorem c4_non_master_denied (current master : PyStr) (file : Option PyStr)
    (hwid node : PyStr) (h : current ≠ master) :
    add_hwid current master file hwid = ⟨false, file, [permAddMsg]⟩ ∧
    remove_hwid current master file hwid node = ⟨false, file, [permRemoveMsg]⟩ := by
  have hm : (current == master) = false := beq_eq_false_iff_ne.mpr h
  constructor
  · simp [add_hwid, is_master, hm, permAddMsg]
  · simp [remove_hwid, is_master, hm, permRemoveMsg]

/-- Witness for C4 with a concrete non-master caller. -/
theorem c4_witness :
    add_hwid (str "OTHER") (str "MASTER") (some (str "AAAA\n")) (str "BBBB") =
      ⟨false, some (str "AAAA\n"), [permAddMsg]⟩ ∧
    remove_hwid (str "OTHER") (str "MASTER") (some (str "AAAA\n")) (str "BBBB")
        (str "host") =
      ⟨false, some (str "AAAA\n"), [permRemoveMsg]⟩ :=
  c4_non_master_denied (str "OTHER") (str "MASTER") (some (str "AAAA\n"))
    (str "BBBB") (str "host") (by decide)

/-- Counterexample to C3 as stated: a *non-master* caller removing the
master fingerprint gets the `PermissionDenied` outcome, not
`ProtectedEntry` — the source checks `is_master()` before the protected
check and prints the permission diagnostic. -/
theorem c3_counterexample :
    (remove_hwid (str "OTHER") (str "MASTER") (some (str "MASTER\n"))
        (str "MASTER") (str "host")).printed = [permRemoveMsg] ∧
    [permRemoveMsg] ≠ [protectedEntryMsg] := by
  exact ⟨by decide, by decide⟩

/-- C3 (amended): `remove_hwid` applied to the master fingerprint (after
case normalisation) always returns `False` and leaves the file unmodified,
for every caller; but the `ProtectedEntry` diagnostic is produced only
when the caller *is* the master — a non-master caller gets
`PermissionDenied` instead. -/
theorem c3_remove_master_protected (current master : PyStr)
    (file : Option PyStr) (hwid node : PyStr) (h : pyUpper hwid = master) :
    (remove_hwid current master file hwid node).ok = false ∧
    (remove_hwid current master file hwid node).file = file ∧
    (remove_hwid current master file hwid node).printed =
      (if current == master then [protectedEntryMsg] else [permRemoveMsg]) := by
  by_cases hc : current = master
  · have hb : (current == master) = true := beq_iff_eq.mpr hc
    have hh : (pyUpper hwid == master) = true := beq_iff_eq.mpr h
    simp [remove_hwid, is_master, hb, hh, protectedEntryMsg]
  · have hb : (current == master) = false := beq_eq_false_iff_ne.mpr hc
    simp [remove_hwid, is_master, hb, permRemoveMsg]

/-- Witness for C3 (amended): the master itself removing the master value
(passed in lowercase, exercising the normalisation). -/
theorem c3_witness :
    (remove_hwid (str "MASTER") (str "MASTER") (some (str "MASTER\nAAAA\n"))
        (str "master") (str "host")).ok = false ∧
    (remove_hwid (str "MASTER") (str "MASTER") (some (str "MASTER\nAAAA\n"))
        (str "master") (str "host")).file = some (str "MASTER\nAAAA\n") ∧
    (remove_hwid (str "MASTER") (str "MASTER") (some (str "MASTER\nAAAA\n"))
        (str "master") (str "host")).printed =
      (if (str "MASTER" == str "MASTER") then [protectedEntryMsg]
       else [permRemoveMsg]) :=
  c3_remove_master_protected (str "MASTER") (str "MASTER")
    (some (str "MASTER\nAAAA\n")) (str "master") (str "host") (by decide)

/-- Counterexample to C6 as stated: the *returned* outcomes do not
distinguish the failure kinds — `remove_hwid` on an absent target (as
master) and `remove_hwid` by a non-master caller both return `False`, and
a permission-denied `list_authorized_hwids` returns the same `[]` as a
successful listing of an effectively empty store. -/
theorem c6_counterexample :
    (remove_hwid (str "MASTER") (str "MASTER") (some (str "MASTER\nAAAA\n"))
        (str "BBBB") (str "host")).ok =
      (remove_hwid (str "OTHER") (str "MASTER") (some (str "MASTER\nAAAA\n"))
        (str "BBBB") (str "host")).ok ∧
    (list_authorized_hwids (str "OTHER") (str "MASTER")
        (some (str "MASTER\nAAAA\n"))).items =
      (list_authorized_hwids (str "M2") (str "M2")
        (some (str "# empty store\n"))).items := by
  exact ⟨by decide, by decide⟩

/-- C6 (amended): the mutation and listing operations return boolean-only
(or empty-list) failure outcomes that coincide across failure kinds; the
kinds (`NotFound`, `PermissionDenied`, `ProtectedEntry`) are distinguished
only by the printed diagnostics, which are pairwise distinct. -/
theorem c6_failure_outcomes (current master : PyStr) (file : Option PyStr)
    (hwid node : PyStr) (hc : current ≠ master) (hm : pyUpper hwid ≠ master)
    (habs : pyUpper hwid ∉ loadAuthorizedHwids file) :
    remove_hwid current master file hwid node = ⟨false, file, [permRemoveMsg]⟩ ∧
    remove_hwid master master file hwid node =
      ⟨false, file, [notFoundMsg (pyUpper hwid)]⟩ ∧
    list_authorized_hwids current master file = ⟨[], [permListMsg]⟩ ∧
    (list_authorized_hwids master master file).items = loadAuthorizedHwids file ∧
    permRemoveMsg ≠ notFoundMsg (pyUpper hwid) ∧
    protectedEntryMsg ≠ notFoundMsg (pyUpper hwid) ∧
    permRemoveMsg ≠ protectedEntryMsg := by
  have hcb : (current == master) = false := beq_eq_false_iff_ne.mpr hc
  have hmb : (pyUpper hwid == master) = false := beq_eq_false_iff_ne.mpr hm
  have habs' : (loadAuthorizedHwids file).contains (pyUpper hwid) = false :=
    (contains_false_iff _ _).mpr habs
  have headD_notFound : ∀ x : PyStr, (notFoundMsg x).headD ' ' = 'H' :=
    fun _ => rfl
  refine ⟨?_, ?_, ?_, ?_, ?_, ?_, by decide⟩
  · simp [remove_hwid, is_master, hcb, permRemoveMsg]
  · simp [remove_hwid, is_master, hmb, habs', notFoundMsg, habs]
  · simp [list_authorized_hwids, is_master, hcb, permListMsg]
  · simp [list_authorized_hwids, is_master]
  · intro he
    have h2 : permRemoveMsg.headD ' ' = (notFoundMsg (pyUpper hwid)).headD ' ' := by
      rw [he]
    rw [headD_notFound] at h2
    exact absurd h2 (by decide)
  · intro he
    have h2 : protectedEntryMsg.headD ' ' =
        (notFoundMsg (pyUpper hwid)).headD ' ' := by
      rw [he]
    rw [headD_notFound] at h2
    exact absurd h2 (by decide)

/-- Witness for C6 (amended) at a concrete store. -/
theorem c6_witness :
    remove_hwid (str "OTHER") (str "MASTER") (some (str "MASTER\nAAAA\n"))
        (str "BBBB") (str "host") =
      ⟨false, some (str "MASTER\nAAAA\n"), [permRemoveMsg]⟩ ∧
    remove_hwid (str "MASTER") (str "MASTER") (some (str "MASTER\nAAAA\n"))
        (str "BBBB") (str "host") =
      ⟨false, some (str "MASTER\nAAAA\n"), [notFoundMsg (pyUpper (str "BBBB"))]⟩ ∧
    list_authorized_hwids (str "OTHER") (str "MASTER")
        (some (str "MASTER\nAAAA\n")) = ⟨[], [permListMsg]⟩ ∧
    (list_authorized_hwids (str "MASTER") (str "MASTER")
        (some (str "MASTER\nAAAA\n"))).items =
      loadAuthorizedHwids (some (str "MASTER\nAAAA\n")) ∧
    permRemoveMsg ≠ notFoundMsg (pyUpper (str "BBBB")) ∧
    protectedEntryMsg ≠ notFoundMsg (pyUpper (str "BBBB")) ∧
    permRemoveMsg ≠ protectedEntryMsg :=
  c6_failure_outcomes (str "OTHER") (str "MASTER") (some (str "MASTER\nAAAA\n"))
    (str "BBBB") (str "host") (by decide) (by decide) (by decide)

/-- A sample environment: a Linux host with all three probes succeeding. -/
def sampleEnv : SysEnv :=
  { system := str "Linux", node := str "host", machine := str "x86_64",
    proc := str "x86_64",
    winCpuOut := none, winMbOut := none, winBiosOut := none,
    linMachineId := some (str "ab12cd34ef56\n"),
    linCpuInfo := some (str "processor\t: 0\nmodel name\t: Sample CPU\n"),
    linDmiUuid := some (str "11111111-2222-3333-4444-555555555555\n"),
    macOut1 := none, macOut2 := none,
    raisesInBody := false }

/-- A Linux environment in which every identity probe fails (raises), so
the collected component list is empty, and no exception reaches
`get_current_hwid`'s own handler. -/
def allProbesFailEnv : SysEnv :=
  { system := str "Linux", node := str "host", machine := str "x86_64",
    proc := str "x86_64",
    winCpuOut := none, winMbOut := none, winBiosOut := none,
    linMachineId := none, linCpuInfo := none, linDmiUuid := none,
    macOut1 := none, macOut2 := none,
    raisesInBody := false }

/-- The same environment with an exception reaching the method's handler. -/
def raisesEnv : SysEnv := { allProbesFailEnv with raisesInBody := true }

/-- C2: `get_current_hwid` is total in the embedding (it returns a
32-character uppercase-hexadecimal string for *every* environment,
exception branch included); on the non-exception path its result is the
uppercase hex rendering of the first 16 bytes of the SHA-256 digest of the
non-empty collected components joined in order with `'|'`; and it is
deterministic in the collected source values. -/
theorem c2_generator_contract :
    (∀ env : SysEnv, (get_current_hwid env).length = 32 ∧
      ∀ c ∈ get_current_hwid env, isUpperHexDigit c = true) ∧
    (∀ env : SysEnv, env.raisesInBody = false →
      get_current_hwid env =
        pyUpper (hexDigestChars
          ((sha256Bytes (utf8Encode (pipeJoin (collectComponents env)))).take 16))) ∧
    (∀ e₁ e₂ : SysEnv, e₁.raisesInBody = false → e₂.raisesInBody = false →
      collectComponents e₁ = collectComponents e₂ →
      get_current_hwid e₁ = get_current_hwid e₂) := by
  refine ⟨?_, ?_, ?_⟩
  · intro env
    unfold get_current_hwid
    split
    · exact ⟨hashHwid_length _, hashHwid_isHex _⟩
    · exact ⟨hashHwid_length _, hashHwid_isHex _⟩
  · intro env h
    unfold get_current_hwid
    rw [h]
    simp only [Bool.false_eq_true, if_false]
    exact hashHwid_eq_first16 _
  · intro e₁ e₂ h1 h2 hc
    unfold get_current_hwid
    rw [h1, h2, hc]
    simp

/-- Witness for C2 at the sample Linux environment. -/
theorem c2_witness :
    (get_current_hwid sampleEnv).length = 32 ∧
    get_current_hwid sampleEnv =
      pyUpper (hexDigestChars
        ((sha256Bytes (utf8Encode (pipeJoin (collectComponents sampleEnv)))).take 16)) ∧
    get_current_hwid sampleEnv = get_current_hwid sampleEnv :=
  ⟨(c2_generator_contract.1 sampleEnv).1,
   c2_generator_contract.2.1 sampleEnv rfl,
   c2_generator_contract.2.2 sampleEnv sampleEnv rfl rfl rfl⟩

set_option maxRecDepth 200000 in
/-- Counterexample to C5 as stated: when every platform-specific probe
fails *silently* the collected component list is empty and
`get_current_hwid` hashes the empty string — it does **not** recompute
from the node/machine/processor fallback, which is reached only from the
method's exception handler.  At this concrete environment the two values
differ. -/
theorem c5_counterexample :
    collectComponents allProbesFailEnv = [] ∧
    allProbesFailEnv.raisesInBody = false ∧
    get_current_hwid allProbesFailEnv ≠
      hashHwid (allProbesFailEnv.node ++ allProbesFailEnv.machine ++
        allProbesFailEnv.proc) := by
  refine ⟨rfl, rfl, by decide⟩

/-- C5 (amended): the generic fallback (node, machine and processor
strings concatenated, hashed identically) is used exactly when an
exception reaches `get_current_hwid`'s own handler; when the
platform-specific collection merely yields zero usable (non-empty)
components, the result is the identically-computed hash of the empty
join. -/
theorem c5_fallback_on_exception :
    (∀ env : SysEnv, env.raisesInBody = true →
      get_current_hwid env = hashHwid (env.node ++ env.machine ++ env.proc)) ∧
    (∀ env : SysEnv, env.raisesInBody = false →
      (collectComponents env).filter (fun c => !c.isEmpty) = [] →
      get_current_hwid env = hashHwid []) := by
  constructor
  · intro env h
    unfold get_current_hwid
    rw [h]
    rfl
  · intro env h hzero
    unfold get_current_hwid
    rw [h]
    simp only [Bool.false_eq_true, if_false]
    unfold pipeJoin
    rw [hzero]
    rfl

/-- Witness for C5 (amended): the exception branch and the
zero-components branch, at concrete environments. -/
theorem c5_witness :
    get_current_hwid raisesEnv =
      hashHwid (raisesEnv.node ++ raisesEnv.machine ++ raisesEnv.proc) ∧
    get_current_hwid allProbesFailEnv = hashHwid [] :=
  ⟨c5_fallback_on_exception.1 raisesEnv rfl,
   c5_fallback_on_exception.2 allProbesFailEnv rfl rfl⟩

theorem startsWithHash_of_upper {s : PyStr}
    (h : startsWithHash (pyUpper s) = true) : startsWithHash s = true := by
  rcases s with _ | ⟨c, t⟩
  · simp [pyUpper, startsWithHash] at h
  · simp only [pyUpper, List.map_cons, startsWithHash, beq_iff_eq] at h ⊢
    exact (pyUpperChar_eq_hash_iff c).mp h

/-- C7: `add_hwid` is idempotent — a master-privileged add of a
fingerprint already present (after case normalisation) succeeds without
touching the file; hence adding a fresh well-formed fingerprint twice
succeeds both times and leaves exactly one occurrence of it in the loaded
allow-list. -/
theorem c7_add_idempotent :
    (∀ (master : PyStr) (file : Option PyStr) (hwid : PyStr),
      pyUpper hwid ∈ loadAuthorizedHwids file →
      add_hwid master master file hwid =
        ⟨true, file, [alreadyMsg (pyUpper hwid)]⟩) ∧
    (∀ (master : PyStr) (file : Option PyStr) (hwid : PyStr),
      wfFile file = true → validEntry (pyUpper hwid) = true →
      pyUpper hwid ∉ loadAuthorizedHwids file →
      (add_hwid master master file hwid).ok = true ∧
      (add_hwid master master (add_hwid master master file hwid).file hwid).ok
        = true ∧
      (add_hwid master master (add_hwid master master file hwid).file hwid).file
        = (add_hwid master master file hwid).file ∧
      ((loadAuthorizedHwids
          (add_hwid master master (add_hwid master master file hwid).file
            hwid).file).count (pyUpper hwid)) = 1) := by
  constructor
  · intro master file hwid hmem
    have hcon : (loadAuthorizedHwids file).contains (pyUpper hwid) = true :=
      (contains_true_iff _ _).mpr hmem
    simp only [add_hwid, is_master, beq_self_eq_true, Bool.not_true, hcon,
      Bool.false_eq_true, if_false, alreadyMsg]
  · intro master file hwid hwf hv habs
    have hcon : (loadAuthorizedHwids file).contains (pyUpper hwid) = false :=
      (contains_false_iff _ _).mpr habs
    have h1 : add_hwid master master file hwid =
        ⟨true, some (file.getD [] ++ pyUpper hwid ++ ['\n']),
          [addedMsg (pyUpper hwid)]⟩ := by
      simp only [add_hwid, is_master, beq_self_eq_true, Bool.not_true, hcon,
        Bool.not_false, Bool.false_eq_true, if_false, if_true, addedMsg]
    have hload1 : loadAuthorizedHwids
        (some (file.getD [] ++ pyUpper hwid ++ ['\n'])) =
        loadAuthorizedHwids file ++ [pyUpper hwid] := by
      rw [load_append_entry hwf hv, pyUpper_idem]
    have hmem1 : pyUpper hwid ∈ loadAuthorizedHwids
        (some (file.getD [] ++ pyUpper hwid ++ ['\n'])) := by
      rw [hload1]
      exact List.mem_append_right _ (List.mem_singleton_self _)
    have hcon1 : (loadAuthorizedHwids
        (some (file.getD [] ++ pyUpper hwid ++ ['\n']))).contains
        (pyUpper hwid) = true := (contains_true_iff _ _).mpr hmem1
    have h2 : add_hwid master master
        (some (file.getD [] ++ pyUpper hwid ++ ['\n'])) hwid =
        ⟨true, some (file.getD [] ++ pyUpper hwid ++ ['\n']),
          [alreadyMsg (pyUpper hwid)]⟩ := by
      simp only [add_hwid, is_master, beq_self_eq_true, Bool.not_true, hcon1,
        Bool.false_eq_true, if_false, alreadyMsg]
    rw [h1]
    refine ⟨rfl, ?_, ?_, ?_⟩
    · rw [h2]
    · rw [h2]
    · rw [h2]
      rw [hload1, List.count_append, List.count_eq_zero.mpr habs]
      simp

/-- Witness for C7: an already-present add (in lowercase) and a double add
of a fresh fingerprint to an absent file. -/
theorem c7_witness :
    add_hwid (str "MASTER") (str "MASTER") (some (str "AAAA\n")) (str "aaaa") =
      ⟨true, some (str "AAAA\n"), [alreadyMsg (pyUpper (str "aaaa"))]⟩ ∧
    (add_hwid (str "MASTER") (str "MASTER") none (str "bbbb")).ok = true ∧
    (add_hwid (str "MASTER") (str "MASTER")
        (add_hwid (str "MASTER") (str "MASTER") none (str "bbbb")).file
        (str "bbbb")).ok = true ∧
    (add_hwid (str "MASTER") (str "MASTER")
        (add_hwid (str "MASTER") (str "MASTER") none (str "bbbb")).file
        (str "bbbb")).file =
      (add_hwid (str "MASTER") (str "MASTER") none (str "bbbb")).file ∧
    ((loadAuthorizedHwids
        (add_hwid (str "MASTER") (str "MASTER")
          (add_hwid (str "MASTER") (str "MASTER") none (str "bbbb")).file
          (str "bbbb")).file).count (pyUpper (str "bbbb"))) = 1 := by
  refine ⟨c7_add_idempotent.1 (str "MASTER") (some (str "AAAA\n")) (str "aaaa")
    (by decide), ?_⟩
  exact c7_add_idempotent.2 (str "MASTER") none (str "bbbb") (by decide)
    (by decide) (by decide)

/-- C8: remove-then-list round trip (all as master): for a well-formed
store not containing the well-formed fingerprint `F` (and `F` not the
master), `add(F)` then `remove(F)` succeed, the rewrite produces the
header comments followed by the surviving entries in their original
relative order, and `list()` afterwards returns exactly the original
entries, without `F`; and in general a successful remove rewrites the file
as the header plus the loaded entries with the first match erased. -/
theorem c8_remove_roundtrip (master node : PyStr) (file : Option PyStr)
    (F : PyStr) (hwf : wfFile file = true) (hv : validEntry (pyUpper F) = true)
    (habs : pyUpper F ∉ loadAuthorizedHwids file) (hne : pyUpper F ≠ master)
    (hmn : '\n' ∉ master) (hnn : '\n' ∉ node) :
    (add_hwid master master file F).ok = true ∧
    (remove_hwid master master (add_hwid master master file F).file F node).ok
      = true ∧
    (remove_hwid master master (add_hwid master master file F).file F node).file
      = some (fileHeader master node ++ linesJoin (loadAuthorizedHwids file)) ∧
    (list_authorized_hwids master master
        (remove_hwid master master (add_hwid master master file F).file F
          node).file).items = loadAuthorizedHwids file ∧
    pyUpper F ∉ (list_authorized_hwids master master
        (remove_hwid master master (add_hwid master master file F).file F
          node).file).items ∧
    (∀ (file' : Option PyStr) (hwid : PyStr), pyUpper hwid ≠ master →
      pyUpper hwid ∈ loadAuthorizedHwids file' →
      remove_hwid master master file' hwid node =
        ⟨true, some (fileHeader master node ++
            linesJoin ((loadAuthorizedHwids file').erase (pyUpper hwid))),
          [removedMsg (pyUpper hwid)]⟩) := by
  have hrem : ∀ (file' : Option PyStr) (hwid : PyStr), pyUpper hwid ≠ master →
      pyUpper hwid ∈ loadAuthorizedHwids file' →
      remove_hwid master master file' hwid node =
        ⟨true, some (fileHeader master node ++
            linesJoin ((loadAuthorizedHwids file').erase (pyUpper hwid))),
          [removedMsg (pyUpper hwid)]⟩ := by
    intro file' hwid hne' hmem'
    have hb : (pyUpper hwid == master) = false := beq_eq_false_iff_ne.mpr hne'
    have hcon : (loadAuthorizedHwids file').contains (pyUpper hwid) = true :=
      (contains_true_iff _ _).mpr hmem'
    simp only [remove_hwid, is_master, beq_self_eq_true, Bool.not_true, hb,
      hcon, Bool.false_eq_true, if_false, if_true, removedMsg]
  have hcon : (loadAuthorizedHwids file).contains (pyUpper F) = false :=
    (contains_false_iff _ _).mpr habs
  have h1 : add_hwid master master file F =
      ⟨true, some (file.getD [] ++ pyUpper F ++ ['\n']),
        [addedMsg (pyUpper F)]⟩ := by
    simp only [add_hwid, is_master, beq_self_eq_true, Bool.not_true, hcon,
      Bool.not_false, Bool.false_eq_true, if_false, if_true, addedMsg]
  have hload1 : loadAuthorizedHwids
      (some (file.getD [] ++ pyUpper F ++ ['\n'])) =
      loadAuthorizedHwids file ++ [pyUpper F] := by
    rw [load_append_entry hwf hv, pyUpper_idem]
  have hmem1 : pyUpper F ∈ loadAuthorizedHwids
      (some (file.getD [] ++ pyUpper F ++ ['\n'])) := by
    rw [hload1]
    exact List.mem_append_right _ (List.mem_singleton_self _)
  have herase : (loadAuthorizedHwids
      (some (file.getD [] ++ pyUpper F ++ ['\n']))).erase (pyUpper F) =
      loadAuthorizedHwids file := by
    rw [hload1, List.erase_append_right _ habs]
    simp
  have h2 := hrem (some (file.getD [] ++ pyUpper F ++ ['\n'])) F hne hmem1
  rw [herase] at h2
  have hlist : loadAuthorizedHwids
      (some (fileHeader master node ++
        linesJoin (loadAuthorizedHwids file))) = loadAuthorizedHwids file :=
    load_rewrite_roundtrip master node (loadAuthorizedHwids file) hmn hnn
      (fun e he => loaded_entry_spec_file e he)
  rw [h1]
  refine ⟨rfl, ?_, ?_, ?_, ?_, hrem⟩
  · rw [h2]
  · rw [h2]
  · rw [h2]
    simp only [list_authorized_hwids, is_master, beq_self_eq_true, Bool.not_true,
      Bool.false_eq_true, if_false]
    exact hlist
  · rw [h2]
    simp only [list_authorized_hwids, is_master, beq_self_eq_true, Bool.not_true,
      Bool.false_eq_true, if_false]
    rw [hlist]
    exact habs

/-- Witness for C8 at a concrete two-entry store. -/
theorem c8_witness :
    (add_hwid (str "MASTER") (str "MASTER") (some (str "MASTER\nAAAA\n"))
        (str "bbbb")).ok = true ∧
    (remove_hwid (str "MASTER") (str "MASTER")
        (add_hwid (str "MASTER") (str "MASTER") (some (str "MASTER\nAAAA\n"))
          (str "bbbb")).file (str "bbbb") (str "host")).ok = true ∧
    (remove_hwid (str "MASTER") (str "MASTER")
        (add_hwid (str "MASTER") (str "MASTER") (some (str "MASTER\nAAAA\n"))
          (str "bbbb")).file (str "bbbb") (str "host")).file =
      some (fileHeader (str "MASTER") (str "host") ++
        linesJoin (loadAuthorizedHwids (some (str "MASTER\nAAAA\n")))) ∧
    (list_authorized_hwids (str "MASTER") (str "MASTER")
        (remove_hwid (str "MASTER") (str "MASTER")
          (add_hwid (str "MASTER") (str "MASTER") (some (str "MASTER\nAAAA\n"))
            (str "bbbb")).file (str "bbbb") (str "host")).file).items =
      loadAuthorizedHwids (some (str "MASTER\nAAAA\n")) ∧
    pyUpper (str "bbbb") ∉ (list_authorized_hwids (str "MASTER") (str "MASTER")
        (remove_hwid (str "MASTER") (str "MASTER")
          (add_hwid (str "MASTER") (str "MASTER") (some (str "MASTER\nAAAA\n"))
            (str "bbbb")).file (str "bbbb") (str "host")).file).items := by
  obtain ⟨a, b, c, d, e, _⟩ := c8_remove_roundtrip (str "MASTER") (str "host")
    (some (str "MASTER\nAAAA\n")) (str "bbbb") (by decide) (by decide)
    (by decide) (by decide) (by decide) (by decide)
  exact ⟨a, b, c, d, e⟩

/-- The spec's load semantics, stated from its (amended) words: strip each
line, keep the lines that are non-blank and do not then begin with the
comment marker, normalise each retained line to uppercase, preserving file
order. -/
def specLoadLines (content : PyStr) : List PyStr :=
  (((splitNl content).map pyStrip).filter
    (fun l => !l.isEmpty && !startsWithHash l)).map pyUpper

/-- Counterexample to C9 as stated: the "vice versa" direction of
case-insensitive matching fails — after a master add of `"ABCD1234"`, a
literal lowercase current fingerprint `"abcd1234"` is *not* authorized,
because `is_authorized` compares the current fingerprint verbatim against
the uppercased entries. -/
theorem c9_counterexample :
    is_authorized (str "abcd1234")
      (add_hwid (str "MASTERFP") (str "MASTERFP") none (str "ABCD1234")).file
      = false := by
  decide

/-- C9 (amended): the load operation returns exactly the lines that are
non-blank after stripping and do not then begin with `'#'`, stripped and
uppercased, in file order; a missing file yields the empty sequence;
matching is case-insensitive on the stored-entry side — an entry added as
`"abcd1234"` authorizes the current fingerprint `"ABCD1234"` — but not in
the reverse direction, since the current fingerprint is compared
verbatim. -/
theorem c9_load_semantics :
    (∀ content : PyStr,
      loadAuthorizedHwids (some content) = specLoadLines content) ∧
    loadAuthorizedHwids none = [] ∧
    is_authorized (str "ABCD1234")
      (add_hwid (str "MASTERFP") (str "MASTERFP") none (str "abcd1234")).file
      = true ∧
    is_authorized (str "abcd1234")
      (add_hwid (str "MASTERFP") (str "MASTERFP") none (str "ABCD1234")).file
      = false := by
  exact ⟨fun _ => rfl, rfl, by decide, by decide⟩

/-- C10: `add_hwid` does not validate its input — for the empty string and
for any string that uppercases to a `'#'`-headed string, a master add
reports success and appends the line, yet the loaded allow-list does not
change (for single-line inputs), and neither `is_authorized` nor
`list_authorized_hwids` ever reflects the reported-successful add of that
value. -/
theorem c10_add_no_validation (master : PyStr) (file : Option PyStr)
    (hwid : PyStr) (hwf : wfFile file = true)
    (hu : pyUpper hwid = [] ∨ startsWithHash (pyUpper hwid) = true) :
    (add_hwid master master file hwid).ok = true ∧
    (add_hwid master master file hwid).file =
      some (file.getD [] ++ pyUpper hwid ++ ['\n']) ∧
    ('\n' ∉ hwid →
      loadAuthorizedHwids (add_hwid master master file hwid).file =
        loadAuthorizedHwids file) ∧
    is_authorized hwid (add_hwid master master file hwid).file = false ∧
    hwid ∉ (list_authorized_hwids master master
      (add_hwid master master file hwid).file).items := by
  have habs : pyUpper hwid ∉ loadAuthorizedHwids file := by
    rcases hu with hu | hu
    · rw [hu]
      exact nil_not_mem_load file
    · exact hash_head_not_mem_load hu file
  have hcon : (loadAuthorizedHwids file).contains (pyUpper hwid) = false :=
    (contains_false_iff _ _).mpr habs
  have h1 : add_hwid master master file hwid =
      ⟨true, some (file.getD [] ++ pyUpper hwid ++ ['\n']),
        [addedMsg (pyUpper hwid)]⟩ := by
    simp only [add_hwid, is_master, beq_self_eq_true, Bool.not_true, hcon,
      Bool.not_false, Bool.false_eq_true, if_false, if_true, addedMsg]
  have hraw : hwid = [] ∨ startsWithHash hwid = true := by
    rcases hu with hu | hu
    · left
      exact List.map_eq_nil_iff.mp hu
    · right
      exact startsWithHash_of_upper hu
  have hrawabs : ∀ file' : Option PyStr, hwid ∉ loadAuthorizedHwids file' := by
    intro file'
    rcases hraw with hr | hr
    · rw [hr]
      exact nil_not_mem_load file'
    · exact hash_head_not_mem_load hr file'
  rw [h1]
  refine ⟨rfl, rfl, ?_, ?_, ?_⟩
  · intro hnlr
    exact load_append_skipped hwf hu (nl_not_mem_pyUpper hnlr)
  · exact (contains_false_iff _ _).mpr (hrawabs _)
  · simp only [list_authorized_hwids, is_master, beq_self_eq_true,
      Bool.not_true, Bool.false_eq_true, if_false]
    exact hrawabs _

/-- Witness for C10: a master add of a comment-like string to an existing
well-formed store. -/
theorem c10_witness :
    (add_hwid (str "MASTER") (str "MASTER") (some (str "AAAA\n"))
        (str "#tag")).ok = true ∧
    (add_hwid (str "MASTER") (str "MASTER") (some (str "AAAA\n"))
        (str "#tag")).file =
      some ((some (str "AAAA\n")).getD [] ++ pyUpper (str "#tag") ++ ['\n']) ∧
    loadAuthorizedHwids (add_hwid (str "MASTER") (str "MASTER")
        (some (str "AAAA\n")) (str "#tag")).file =
      loadAuthorizedHwids (some (str "AAAA\n")) ∧
    is_authorized (str "#tag") (add_hwid (str "MASTER") (str "MASTER")
        (some (str "AAAA\n")) (str "#tag")).file = false ∧
    (str "#tag") ∉ (list_authorized_hwids (str "MASTER") (str "MASTER")
        (add_hwid (str "MASTER") (str "MASTER") (some (str "AAAA\n"))
          (str "#tag")).file).items := by
  obtain ⟨a, b, c, d, e⟩ := c10_add_no_validation (str "MASTER")
    (some (str "AAAA\n")) (str "#tag") (by decide) (by decide)
  exact ⟨a, b, c (by decide), d, e⟩
